import Mathlib

/-!
Shallow embedding of the note-append core of the `today-i-learned` CLI
(`src/entry.rs`).  File contents are modelled as `String` (a list of
characters); filesystem reads and writes become explicit arguments and
return values, and every fallible operation returns `Except Error _`.
-/

namespace Til

/-- The error taxonomy of the program (`crate::error::Error`).  The
path/string payloads carried by some variants in the source are kept as
`String` fields; the pure model never fabricates paths, so model code only
ever constructs `CannotParseMetaData`. -/
inductive Error where
  | CannotProcessArgs
  | CannotFindDir (which : String)
  | CannotBuildPath
  | CannotCreateDir (path : String)
  | CannotOpenOrCreatePath (path : String)
  | CannotReadFile (path : String)
  | CannotParseMetaData
  | CannotWriteToFile (path : String)
deriving DecidableEq, Repr

/-- The whitespace class of the regex crate's `\s` and of Rust's
`str::trim`, restricted to its ASCII members `[ \t\n\v\f\r]` (the inputs
handled here are ASCII; the non-ASCII Unicode whitespace code points are
not modelled). -/
def rustWs (c : Char) : Bool :=
  c = ' ' || c = '\t' || c = '\n' || c = '\r' || c = Char.ofNat 11 || c = Char.ofNat 12

/-- Rust `str::trim`: drop whitespace from both ends. -/
def trimChars (s : List Char) : List Char :=
  ((s.dropWhile rustWs).reverse.dropWhile rustWs).reverse

/-- Rust `str::split(',')`: split on every comma; the empty string yields
one empty piece. -/
def splitOnChar (sep : Char) : List Char → List (List Char)
  | [] => [[]]
  | c :: rest =>
    if c = sep then [] :: splitOnChar sep rest
    else
      match splitOnChar sep rest with
      | [] => [[c]]
      | p :: ps => (c :: p) :: ps

/-- Rust `[String]::join(sep)`. -/
def joinSep (sep : String) : List String → String
  | [] => ""
  | [x] => x
  | x :: y :: xs => x ++ sep ++ joinSep sep (y :: xs)

/-- The text before the first occurrence of `pat` (the whole string when
`pat` does not occur): Rust `contents.split(pat).next()`, which always
yields `Some` first piece. -/
def beforeFirst (pat : List Char) : List Char → List Char
  | [] => []
  | c :: rest => if pat.isPrefixOf (c :: rest) then [] else c :: beforeFirst pat rest

/-- Whether `pat` occurs as a contiguous substring. -/
def hasSubstr (pat : List Char) : List Char → Bool
  | [] => pat.isEmpty
  | c :: rest => pat.isPrefixOf (c :: rest) || hasSubstr pat rest

/-- Worker for `replaceAll`: while `skip` is positive the current
character belongs to an occurrence just replaced and is consumed silently;
at `skip = 0` an occurrence of `pat` starting here is replaced by `repl`
(and the remaining `pat.length - 1` pattern characters are scheduled to be
skipped), otherwise the character is kept. -/
def replaceAllAux (pat repl : List Char) : Nat → List Char → List Char
  | _, [] => []
  | skip + 1, _ :: rest => replaceAllAux pat repl skip rest
  | 0, c :: rest =>
    if pat.isPrefixOf (c :: rest) && !pat.isEmpty then
      repl ++ replaceAllAux pat repl (pat.length - 1) rest
    else
      c :: replaceAllAux pat repl 0 rest

/-- Rust `str::replace(pat, repl)`: replace every non-overlapping
occurrence of `pat`, scanning left to right.  (The source only ever calls
this with the non-empty matched tags line as `pat`, so the empty-pattern
case never arises; it is mapped to the identity here.) -/
def replaceAll (pat repl s : List Char) : List Char :=
  replaceAllAux pat repl 0 s

/-- The regex crate's lazy bracket body `(.*?)\]$` (multiline mode, so `.`
never matches `\n` and `$` matches before `\n` or at the end): the capture
is the shortest newline-free prefix whose following `]` sits at the end of
a line.  Returns the capture group. -/
def lazyCap : List Char → Option (List Char)
  | [] => none
  | c :: rest =>
    if c = ']' && (rest.isEmpty || rest.head? == some '\n') then some []
    else if c = '\n' then none
    else (lazyCap rest).map (fun cap => c :: cap)

/-- The literal key of the tags pattern. -/
def tagsKey : List Char := "tags:".data

/-- Try the pattern `tags:\s*\[(.*?)\]$` at a position known to be a line
start: the literal `tags:`, then the maximal whitespace run (the greedy
`\s*` backtracks only to positions holding a whitespace character, never a
`[`, so maximal munch is exact), then `[`, then the lazy bracket body.
Returns `(whole matched text, capture group)`. -/
def matchTagsAt (s : List Char) : Option (List Char × List Char) :=
  if tagsKey.isPrefixOf s then
    let rest := s.drop 5
    let ws := rest.takeWhile rustWs
    match rest.dropWhile rustWs with
    | '[' :: inner =>
      (lazyCap inner).map (fun cap => (tagsKey ++ ws ++ '[' :: (cap ++ [']']), cap))
    | _ => none
  else none

/-- Scan for the next line start (the position after each `\n`) and try
the tags pattern there. -/
def findTagsFrom : List Char → Option (List Char × List Char)
  | [] => none
  | c :: rest =>
    if c = '\n' then
      match matchTagsAt rest with
      | some r => some r
      | none => findTagsFrom rest
    else findTagsFrom rest

/-- The regex crate's `captures` for `(?m)^tags:\s*\[(.*?)\]$`: the
leftmost match, where `^` anchors at the start of the text and after every
`\n`.  Returns `(captures[0], captures[1])`. -/
def findTags (s : List Char) : Option (List Char × List Char) :=
  match matchTagsAt s with
  | some r => some r
  | none => findTagsFrom s

/-- The header-closing delimiter searched for by `update_meta`. -/
def headerDelim : List Char := "\n---\n".data

/-- The decimal digit character for a digit `n < 10`. -/
def digitChar (n : Nat) : Char := Char.ofNat (48 + n)

/-- Decimal rendering of a natural number, as Rust's `{}` formatting of an
unsigned integer prints it: most significant digit first, no padding, no
sign. -/
def decRepr (n : Nat) : List Char :=
  if _h : n < 10 then [digitChar n]
  else decRepr (n / 10) ++ [digitChar (n % 10)]
termination_by n
decreasing_by exact Nat.div_lt_self (by omega) (by omega)

namespace Entry

/-- `Entry::generate_meta`: the front-matter block, byte for byte as the
raw string literal in the source renders it (the lines after the first are
indented by four spaces there, and the block ends with two four-space
lines). -/
def generate_meta (tags : List String) : String :=
  "---\n    title: \"default\"\n    tags: [" ++ joinSep ", " tags ++
    "]\n    ---\n    \n    "

/-- `Entry::update_meta`: read the contents, take the text before the
first `\n---\n` as the candidate header, find the tags line by regex,
merge the input tags in, and (when anything new arrived) replace every
occurrence of the matched line text.  The argument `contents` stands for
the file read by `fs::read_to_string`; the `Ok` payload is the contents
written back by `fs::write`. -/
def update_meta (tags : List String) (contents : String) : Except Error String :=
  let meta := beforeFirst headerDelim contents.data
  match findTags meta with
  | none => Except.error Error.CannotParseMetaData
  | some (matched, inner) =>
    let existing_tags : List String :=
      (splitOnChar ',' inner).map (fun s => String.mk (trimChars s))
    let new_tags := tags.filter (fun t => !(existing_tags.contains t))
    if new_tags.isEmpty then Except.ok contents
    else
      let updated_tags := joinSep ", " (existing_tags ++ new_tags)
      Except.ok (String.mk
        (replaceAll matched ("tags: [" ++ updated_tags ++ "]").data contents.data))

/-- `Entry::write`: `file` is the content of the opened (append-mode,
create-on-missing) file, so `file_size == 0` is `file.data.isEmpty`.  On
zero size the generated header is written; otherwise, with non-empty tags,
`update_meta` rewrites the file in place (an error aborts before the entry
line, leaving the file unchanged).  Finally the entry line `- {content}\n`
is appended through the append-mode handle, i.e. at the current end. -/
def write (content : String) (tags : List String) (file : String) :
    Except Error String :=
  if file.data.isEmpty then
    Except.ok (generate_meta tags ++ "- " ++ content ++ "\n")
  else if !tags.isEmpty then
    match update_meta tags file with
    | Except.error e => Except.error e
    | Except.ok newFile => Except.ok (newFile ++ "- " ++ content ++ "\n")
  else
    Except.ok (file ++ "- " ++ content ++ "\n")

/-- Rust `format!("{:02}", n)`: decimal, zero-padded on the left to width
two. -/
def pad2 (n : Nat) : String :=
  if n < 10 then String.mk ('0' :: decRepr n) else String.mk (decRepr n)

/-- `Entry::build_path` without its side effects: the date is rendered
`format!("{:02}-{:02}-{}", month, day, year)` and the path is
`root.join(date).join("default")` with extension `md`.  (`chrono`'s local
month/day/year are modelled as naturals; directory creation is a side
effect outside the pure model.) -/
def build_path (root : String) (month day year : Nat) : String :=
  root ++ "/" ++ pad2 month ++ "-" ++ pad2 day ++ "-" ++
    String.mk (decRepr year) ++ "/default.md"

end Entry

/-! ## Basic lemmas about the string helpers -/

theorem beforeFirst_eq_self (pat : List Char) :
    ∀ s : List Char, hasSubstr pat s = false → beforeFirst pat s = s
  | [], _ => rfl
  | c :: rest, h => by
    unfold hasSubstr at h
    simp only [Bool.or_eq_false_iff] at h
    unfold beforeFirst
    rw [h.1, if_neg (by simp), beforeFirst_eq_self pat rest h.2]

/-- The existing-tag set `update_meta` parses from the regex capture
`inner`: split the bracket contents on commas, trim each piece. -/
def parsedTags (inner : List Char) : List String :=
  (splitOnChar ',' inner).map (fun s => String.mk (trimChars s))

/-- The tags `update_meta` decides to add: the input tags not already in
the parsed existing-tag set (exact string equality). -/
def newTagsOf (tags : List String) (inner : List Char) : List String :=
  tags.filter (fun t => !((parsedTags inner).contains t))

/-- The rewritten tags line `update_meta` substitutes for the matched one:
existing tags in original order, then the genuinely new tags in input
order. -/
def updatedLine (tags : List String) (inner : List Char) : String :=
  "tags: [" ++ joinSep ", " (parsedTags inner ++ newTagsOf tags inner) ++ "]"

/-- A tag string that survives the round trip through the header: free of
the separator and delimiter characters and already trimmed. -/
def wfTag (t : String) : Prop :=
  (∀ c ∈ t.data, c ≠ ',' ∧ c ≠ ']' ∧ c ≠ '\n') ∧ trimChars t.data = t.data

theorem data_mk (l : List Char) : (String.mk l).data = l := rfl

/-- `update_meta` on a contents whose candidate header matches the regex,
phrased through the named merge components (definitionally the same
computation). -/
theorem update_meta_found (tags : List String) (contents : String)
    (m0 inner : List Char)
    (hfind : findTags (beforeFirst headerDelim contents.data) =
      some (m0, inner)) :
    Entry.update_meta tags contents =
      if (newTagsOf tags inner).isEmpty then Except.ok contents
      else Except.ok (String.mk
        (replaceAll m0 (updatedLine tags inner).data contents.data)) := by
  simp only [Entry.update_meta, hfind, parsedTags, newTagsOf, updatedLine]

/-! ## Lemmas about decimal rendering -/

theorem decRepr_eq_small {n : Nat} (h : n < 10) : decRepr n = [digitChar n] := by
  rw [decRepr, dif_pos h]

theorem decRepr_eq_big {n : Nat} (h : ¬n < 10) :
    decRepr n = decRepr (n / 10) ++ [digitChar (n % 10)] := by
  conv_lhs => rw [decRepr]
  rw [dif_neg h]

theorem decRepr_ne_nil (n : Nat) : decRepr n ≠ [] := by
  by_cases h : n < 10
  · rw [decRepr_eq_small h]
    simp
  · rw [decRepr_eq_big h]
    simp

theorem digitChar_inj {a b : Nat} (ha : a < 10) (hb : b < 10) :
    digitChar a = digitChar b → a = b := by
  interval_cases a <;> interval_cases b <;> decide

theorem decRepr_len_step {n : Nat} (h : 10 ≤ n) :
    (decRepr n).length = (decRepr (n / 10)).length + 1 := by
  rw [decRepr_eq_big (by omega)]
  simp

theorem decRepr_len_one {n : Nat} (h : n < 10) : (decRepr n).length = 1 := by
  rw [decRepr_eq_small h]
  rfl

theorem decRepr_len_four {n : Nat} (h1 : 1000 ≤ n) (h2 : n ≤ 9999) :
    (decRepr n).length = 4 := by
  rw [decRepr_len_step (by omega), decRepr_len_step (by omega),
    decRepr_len_step (by omega), decRepr_len_one (by omega)]

theorem decRepr_inj : ∀ a b : Nat, decRepr a = decRepr b → a = b := by
  intro a
  induction a using Nat.strong_induction_on with
  | _ a ih =>
    intro b h
    by_cases ha : a < 10 <;> by_cases hb : b < 10
    · rw [decRepr_eq_small ha, decRepr_eq_small hb] at h
      simp only [List.cons.injEq, and_true] at h
      exact digitChar_inj ha hb h
    · exfalso
      rw [decRepr_eq_small ha, decRepr_eq_big hb] at h
      have hlen := congrArg List.length h
      simp only [List.length_append, List.length_cons, List.length_nil] at hlen
      exact decRepr_ne_nil (b / 10) (List.length_eq_zero.mp (by omega))
    · exfalso
      rw [decRepr_eq_big ha, decRepr_eq_small hb] at h
      have hlen := congrArg List.length h
      simp only [List.length_append, List.length_cons, List.length_nil] at hlen
      exact decRepr_ne_nil (a / 10) (List.length_eq_zero.mp (by omega))
    · rw [decRepr_eq_big ha, decRepr_eq_big hb] at h
      have h2 := congrArg List.reverse h
      simp only [List.reverse_append, List.reverse_cons, List.reverse_nil,
        List.nil_append, List.cons_append, List.cons.injEq] at h2
      obtain ⟨hdig, hrest⟩ := h2
      have hmod : a % 10 = b % 10 :=
        digitChar_inj (Nat.mod_lt _ (by omega)) (Nat.mod_lt _ (by omega)) hdig
      have hdiv : a / 10 = b / 10 :=
        ih (a / 10) (Nat.div_lt_self (by omega) (by omega)) _
          (List.reverse_injective hrest)
      omega

theorem pad2_data {n : Nat} :
    (Entry.pad2 n).data = if n < 10 then '0' :: decRepr n else decRepr n := by
  unfold Entry.pad2
  by_cases h : n < 10 <;> simp [h]

theorem pad2_len {n : Nat} (h : n < 100) : (Entry.pad2 n).data.length = 2 := by
  rw [pad2_data]
  by_cases h10 : n < 10
  · simp [h10, decRepr_len_one h10]
  · simp only [h10, if_false]
    rw [decRepr_len_step (by omega), decRepr_len_one (by omega)]

theorem decRepr_two_digits {n : Nat} (h1 : 10 ≤ n) (h2 : n < 100) :
    decRepr n = [digitChar (n / 10), digitChar (n % 10)] := by
  rw [decRepr_eq_big (by omega), decRepr_eq_small (by omega)]
  rfl

theorem pad2_inj {a b : Nat} (ha : a < 100) (hb : b < 100) :
    Entry.pad2 a = Entry.pad2 b → a = b := by
  intro h
  have hd : (Entry.pad2 a).data = (Entry.pad2 b).data := congrArg String.data h
  rw [pad2_data, pad2_data] at hd
  by_cases ha10 : a < 10 <;> by_cases hb10 : b < 10
  · rw [if_pos ha10, if_pos hb10] at hd
    exact decRepr_inj a b (by simpa using hd)
  · exfalso
    rw [if_pos ha10, if_neg hb10, decRepr_eq_small ha10,
      decRepr_two_digits (by omega) hb] at hd
    simp only [List.cons.injEq] at hd
    have : 0 = b / 10 := digitChar_inj (by omega) (by omega)
      (show digitChar 0 = digitChar (b / 10) from hd.1)
    omega
  · exfalso
    rw [if_neg ha10, if_pos hb10, decRepr_eq_small hb10,
      decRepr_two_digits (by omega) ha] at hd
    simp only [List.cons.injEq] at hd
    have : a / 10 = 0 := digitChar_inj (by omega) (by omega)
      (show digitChar (a / 10) = digitChar 0 from hd.1)
    omega
  · rw [if_neg ha10, if_neg hb10, decRepr_two_digits (by omega) ha,
      decRepr_two_digits (by omega) hb] at hd
    simp only [List.cons.injEq, and_true] at hd
    have h1 : a / 10 = b / 10 :=
      digitChar_inj (by omega) (by omega) hd.1
    have h2 : a % 10 = b % 10 :=
      digitChar_inj (by omega) (by omega) hd.2
    omega

/-! ## Lemmas about the header scan -/

theorem isPrefixOf_append_self (l r : List Char) : l.isPrefixOf (l ++ r) = true :=
  List.isPrefixOf_iff_prefix.mpr (List.prefix_append l r)

theorem beforeFirst_cons (pat : List Char) (c : Char) (rest : List Char) :
    beforeFirst pat (c :: rest) =
      if pat.isPrefixOf (c :: rest) then [] else c :: beforeFirst pat rest := rfl

theorem beforeFirst_cons_ne (pat : List Char) (c : Char) (rest : List Char)
    (h : pat.isPrefixOf (c :: rest) = false) :
    beforeFirst pat (c :: rest) = c :: beforeFirst pat rest := by
  rw [beforeFirst_cons, h]
  simp

theorem isPrefixOf_newline_cons (p : List Char) (c : Char) (rest : List Char)
    (h : c ≠ '\n') : ('\n' :: p).isPrefixOf (c :: rest) = false := by
  simp only [List.isPrefixOf, Bool.and_eq_false_iff]
  left
  exact beq_eq_false_iff_ne.mpr (fun hc => h hc.symm)

theorem beforeFirst_skip_no_newline (p : List Char) :
    ∀ (l rest : List Char), (∀ c ∈ l, c ≠ '\n') →
      beforeFirst ('\n' :: p) (l ++ rest) = l ++ beforeFirst ('\n' :: p) rest := by
  intro l
  induction l with
  | nil => intro rest _; rfl
  | cons c l ih =>
    intro rest hl
    rw [show (c :: l) ++ rest = c :: (l ++ rest) from rfl,
      beforeFirst_cons_ne _ _ _
        (isPrefixOf_newline_cons p c (l ++ rest) (hl c (by simp))),
      ih rest (fun x hx => hl x (by simp [hx]))]
    rfl

theorem beforeFirst_at_start (c : Char) (pt rest : List Char) :
    beforeFirst (c :: pt) ((c :: pt) ++ rest) = [] := by
  rw [show (c :: pt) ++ rest = c :: (pt ++ rest) from rfl, beforeFirst_cons,
    show (c :: (pt ++ rest)) = (c :: pt) ++ rest from rfl,
    isPrefixOf_append_self (c :: pt) rest]
  simp

theorem findTagsFrom_cons (c : Char) (rest : List Char) :
    findTagsFrom (c :: rest) =
      if c = '\n' then
        match matchTagsAt rest with
        | some r => some r
        | none => findTagsFrom rest
      else findTagsFrom rest := rfl

theorem findTagsFrom_skip_no_newline :
    ∀ (l rest : List Char), (∀ c ∈ l, c ≠ '\n') →
      findTagsFrom (l ++ rest) = findTagsFrom rest := by
  intro l
  induction l with
  | nil => intro rest _; rfl
  | cons c l ih =>
    intro rest hl
    rw [show (c :: l) ++ rest = c :: (l ++ rest) from rfl, findTagsFrom_cons,
      if_neg (hl c (by simp))]
    exact ih rest (fun x hx => hl x (by simp [hx]))

theorem findTagsFrom_newline_none (rest : List Char)
    (h : matchTagsAt rest = none) :
    findTagsFrom ('\n' :: rest) = findTagsFrom rest := by
  rw [findTagsFrom_cons, if_pos rfl, h]

theorem findTagsFrom_newline_some (rest : List Char)
    (r : List Char × List Char) (h : matchTagsAt rest = some r) :
    findTagsFrom ('\n' :: rest) = some r := by
  rw [findTagsFrom_cons, if_pos rfl, h]

theorem matchTagsAt_none_of_not_key (s : List Char)
    (h : tagsKey.isPrefixOf s = false) : matchTagsAt s = none := by
  unfold matchTagsAt
  rw [h]
  simp

theorem findTags_of_from (s : List Char) (h : matchTagsAt s = none) :
    findTags s = findTagsFrom s := by
  unfold findTags
  rw [h]

theorem lazyCap_cons (c : Char) (rest : List Char) :
    lazyCap (c :: rest) =
      if c = ']' && (rest.isEmpty || rest.head? == some '\n') then some []
      else if c = '\n' then none
      else (lazyCap rest).map (fun cap => c :: cap) := rfl

theorem lazyCap_closes :
    ∀ (J rest : List Char), (∀ c ∈ J, c ≠ ']' ∧ c ≠ '\n') →
      (rest = [] ∨ rest.head? = some '\n') →
      lazyCap (J ++ (']' :: rest)) = some J := by
  intro J
  induction J with
  | nil =>
    intro rest _ hr
    rw [List.nil_append, lazyCap_cons, if_pos]
    rcases hr with h | h
    · simp [h]
    · simp [h]
  | cons c J ih =>
    intro rest hJ hr
    rw [show (c :: J) ++ (']' :: rest) = c :: (J ++ (']' :: rest)) from rfl,
      lazyCap_cons, if_neg, if_neg]
    · rw [ih rest (fun x hx => hJ x (by simp [hx])) hr]
      rfl
    · exact (hJ c (by simp)).2
    · simp [(hJ c (by simp)).1]

theorem matchTagsAt_line (J rest : List Char)
    (hJ : ∀ c ∈ J, c ≠ ']' ∧ c ≠ '\n')
    (hr : rest = [] ∨ rest.head? = some '\n') :
    matchTagsAt ('t' :: 'a' :: 'g' :: 's' :: ':' :: ' ' :: '[' ::
        (J ++ (']' :: rest))) =
      some ('t' :: 'a' :: 'g' :: 's' :: ':' :: ' ' :: '[' :: (J ++ [']']), J) := by
  have hkey : tagsKey.isPrefixOf ('t' :: 'a' :: 'g' :: 's' :: ':' :: ' ' :: '[' ::
      (J ++ (']' :: rest))) = true :=
    isPrefixOf_append_self tagsKey (' ' :: '[' :: (J ++ (']' :: rest)))
  simp only [matchTagsAt, hkey, if_true]
  rw [show List.drop 5 ('t' :: 'a' :: 'g' :: 's' :: ':' :: ' ' :: '[' ::
      (J ++ (']' :: rest))) = ' ' :: '[' :: (J ++ (']' :: rest)) from rfl]
  have htake : (' ' :: '[' :: (J ++ (']' :: rest))).takeWhile rustWs = [' '] := by
    rw [List.takeWhile_cons_of_pos (by simp [rustWs]),
      List.takeWhile_cons_of_neg (by simp [rustWs])]
  have hdropw : (' ' :: '[' :: (J ++ (']' :: rest))).dropWhile rustWs =
      '[' :: (J ++ (']' :: rest)) := by
    rw [List.dropWhile_cons_of_pos (by simp [rustWs]),
      List.dropWhile_cons_of_neg (by simp [rustWs])]
  rw [htake, hdropw]
  show (lazyCap (J ++ (']' :: rest))).map
      (fun cap => (tagsKey ++ [' '] ++ '[' :: (cap ++ [']']), cap)) =
    some ('t' :: 'a' :: 'g' :: 's' :: ':' :: ' ' :: '[' :: (J ++ [']']), J)
  rw [lazyCap_closes J rest hJ hr]
  rfl

/-! ## Lemmas about tag parsing and joining -/

theorem splitOnChar_ne_nil (sep : Char) : ∀ l : List Char, splitOnChar sep l ≠ [] := by
  intro l
  cases l with
  | nil => simp [splitOnChar]
  | cons c rest =>
    unfold splitOnChar
    by_cases h : c = sep
    · simp [h]
    · simp only [h, if_false]
      cases hs : splitOnChar sep rest <;> simp

theorem splitOnChar_cons (sep c : Char) (rest : List Char) :
    splitOnChar sep (c :: rest) =
      if c = sep then [] :: splitOnChar sep rest
      else
        match splitOnChar sep rest with
        | [] => [[c]]
        | p :: ps => (c :: p) :: ps := rfl

theorem splitOnChar_no_sep (sep : Char) :
    ∀ l : List Char, (∀ c ∈ l, c ≠ sep) → splitOnChar sep l = [l] := by
  intro l
  induction l with
  | nil => intro _; rfl
  | cons c l ih =>
    intro h
    rw [splitOnChar_cons, if_neg (h c (by simp)),
      ih (fun x hx => h x (by simp [hx]))]

theorem splitOnChar_cons_sep (sep : Char) (rest : List Char) :
    splitOnChar sep (sep :: rest) = [] :: splitOnChar sep rest := by
  rw [splitOnChar_cons, if_pos rfl]

theorem splitOnChar_append_sep (sep : Char) :
    ∀ (l rest : List Char), (∀ c ∈ l, c ≠ sep) →
      splitOnChar sep (l ++ sep :: rest) = l :: splitOnChar sep rest := by
  intro l
  induction l with
  | nil => intro rest _; exact splitOnChar_cons_sep sep rest
  | cons c l ih =>
    intro rest h
    show splitOnChar sep (c :: (l ++ sep :: rest)) = _
    rw [splitOnChar_cons, if_neg (h c (by simp)),
      ih rest (fun x hx => h x (by simp [hx]))]

theorem trimChars_cons_ws (c : Char) (l : List Char) (h : rustWs c = true) :
    trimChars (c :: l) = trimChars l := by
  unfold trimChars
  rw [List.dropWhile_cons_of_pos h]

theorem parsedTags_joinSep :
    ∀ ex : List String, ex ≠ [] → (∀ t ∈ ex, wfTag t) →
      parsedTags ((joinSep ", " ex).data) = ex := by
  intro ex
  induction ex with
  | nil => intro h _; exact absurd rfl h
  | cons t ex ih =>
    intro _ hwf
    cases ex with
    | nil =>
      show parsedTags t.data = [t]
      unfold parsedTags
      rw [splitOnChar_no_sep ',' t.data (fun c hc => ((hwf t (by simp)).1 c hc).1)]
      simp only [List.map_cons, List.map_nil]
      rw [(hwf t (by simp)).2]
    | cons y ex2 =>
      show parsedTags ((t ++ ", " ++ joinSep ", " (y :: ex2)).data) = t :: y :: ex2
      have hdata : (t ++ ", " ++ joinSep ", " (y :: ex2)).data =
          t.data ++ (',' :: ' ' :: (joinSep ", " (y :: ex2)).data) := by
        simp [String.data_append]
      rw [hdata]
      unfold parsedTags
      rw [splitOnChar_append_sep ',' t.data _
        (fun c hc => ((hwf t (by simp)).1 c hc).1)]
      obtain ⟨p, ps, hps⟩ : ∃ p ps,
          splitOnChar ',' ((joinSep ", " (y :: ex2)).data) = p :: ps := by
        cases hsp : splitOnChar ',' ((joinSep ", " (y :: ex2)).data) with
        | nil => exact absurd hsp (splitOnChar_ne_nil ',' _)
        | cons p ps => exact ⟨p, ps, rfl⟩
      have hs2 : splitOnChar ',' (' ' :: (joinSep ", " (y :: ex2)).data) =
          (' ' :: p) :: ps := by
        unfold splitOnChar
        rw [if_neg (by decide), hps]
      rw [hs2]
      have hih := ih (by simp) (fun x hx => hwf x (by simp [hx]))
      unfold parsedTags at hih
      rw [hps] at hih
      simp only [List.map_cons] at hih ⊢
      rw [trimChars_cons_ws ' ' p (by decide), (hwf t (by simp)).2]
      rw [hih]

theorem mem_joinSep_data :
    ∀ (ex : List String) (c : Char), c ∈ (joinSep ", " ex).data →
      c = ',' ∨ c = ' ' ∨ ∃ t ∈ ex, c ∈ t.data := by
  intro ex
  induction ex with
  | nil =>
    intro c hc
    exact absurd hc (by simp [joinSep, show ("" : String).data = [] from rfl])
  | cons t ex ih =>
    cases ex with
    | nil =>
      intro c hc
      exact Or.inr (Or.inr ⟨t, by simp, hc⟩)
    | cons y ex2 =>
      intro c hc
      rw [show joinSep ", " (t :: y :: ex2) =
        t ++ ", " ++ joinSep ", " (y :: ex2) from rfl] at hc
      simp only [String.data_append, List.mem_append,
        show (", " : String).data = [',', ' '] from rfl, List.mem_cons,
        List.not_mem_nil, or_false] at hc
      rcases hc with (ht | hsep) | hjoin
      · exact Or.inr (Or.inr ⟨t, by simp, ht⟩)
      · rcases hsep with h | h
        · exact Or.inl h
        · exact Or.inr (Or.inl h)
      · rcases ih c hjoin with h | h | ⟨u, hu, hcu⟩
        · exact Or.inl h
        · exact Or.inr (Or.inl h)
        · exact Or.inr (Or.inr ⟨u, by simp [hu], hcu⟩)

/-! ## Lemmas about replaceAll -/

theorem replaceAllAux_skip (pat repl : List Char) :
    ∀ (l rest : List Char),
      replaceAllAux pat repl l.length (l ++ rest) = replaceAllAux pat repl 0 rest := by
  intro l
  induction l with
  | nil => intro rest; rfl
  | cons c l ih => intro rest; exact ih rest

theorem replaceAll_head (pat repl rest : List Char) (h : pat ≠ []) :
    replaceAll pat repl (pat ++ rest) = repl ++ replaceAll pat repl rest := by
  match pat, h with
  | c :: pt, _ =>
    show replaceAllAux (c :: pt) repl 0 (c :: (pt ++ rest)) = _
    rw [show replaceAllAux (c :: pt) repl 0 (c :: (pt ++ rest)) =
        if (c :: pt).isPrefixOf (c :: (pt ++ rest)) && !(c :: pt).isEmpty then
          repl ++ replaceAllAux (c :: pt) repl ((c :: pt).length - 1) (pt ++ rest)
        else c :: replaceAllAux (c :: pt) repl 0 (pt ++ rest) from rfl]
    rw [if_pos (by simp [isPrefixOf_append_self (c :: pt) rest])]
    have hlen : (c :: pt).length - 1 = pt.length := by simp
    rw [hlen, replaceAllAux_skip]
    rfl

theorem replaceAll_cons_ne (pat repl : List Char) (c : Char) (rest : List Char)
    (h : pat.isPrefixOf (c :: rest) = false) :
    replaceAll pat repl (c :: rest) = c :: replaceAll pat repl rest := by
  show replaceAllAux pat repl 0 (c :: rest) = _
  rw [show replaceAllAux pat repl 0 (c :: rest) =
      if pat.isPrefixOf (c :: rest) && !pat.isEmpty then
        repl ++ replaceAllAux pat repl (pat.length - 1) rest
      else c :: replaceAllAux pat repl 0 rest from rfl]
  rw [h]
  simp only [Bool.false_and, if_false, Bool.false_eq_true]
  rfl

theorem replaceAll_skip_front (pat repl : List Char) :
    ∀ (l rest : List Char),
      (∀ i, i < l.length → pat.isPrefixOf ((l ++ rest).drop i) = false) →
      replaceAll pat repl (l ++ rest) = l ++ replaceAll pat repl rest := by
  intro l
  induction l with
  | nil => intro rest _; rfl
  | cons c l ih =>
    intro rest h
    have h0 : pat.isPrefixOf (c :: (l ++ rest)) = false := by
      simpa using h 0 (by simp)
    rw [show (c :: l) ++ rest = c :: (l ++ rest) from rfl,
      replaceAll_cons_ne pat repl c (l ++ rest) h0,
      ih rest (fun i hi => by simpa using h (i + 1) (by simp; omega))]
    rfl

theorem replaceAll_no_occurrence (pat repl : List Char) :
    ∀ s : List Char, hasSubstr pat s = false → replaceAll pat repl s = s
  | [], _ => rfl
  | c :: rest, h => by
    unfold hasSubstr at h
    simp only [Bool.or_eq_false_iff] at h
    rw [replaceAll_cons_ne pat repl c rest h.1,
      replaceAll_no_occurrence pat repl rest h.2]

/-! ## The canonical header file -/

theorem canonical_meta (J tail : List Char) (hJ : ∀ c ∈ J, c ≠ '\n') :
    beforeFirst headerDelim
      (['-', '-', '-'] ++ ('\n' ::
        (['t', 'i', 't', 'l', 'e', ':', ' ', '\"', 'd', 'e', 'f', 'a', 'u', 'l', 't', '\"'] ++
          ('\n' :: (('t' :: 'a' :: 'g' :: 's' :: ':' :: ' ' :: '[' :: (J ++ [']'])) ++
            (headerDelim ++ tail)))))) =
      ['-', '-', '-'] ++ ('\n' ::
        (['t', 'i', 't', 'l', 'e', ':', ' ', '\"', 'd', 'e', 'f', 'a', 'u', 'l', 't', '\"'] ++
          ('\n' :: (('t' :: 'a' :: 'g' :: 's' :: ':' :: ' ' :: '[' :: (J ++ [']'])) ++ [])))) := by
  have hhd : headerDelim = '\n' :: ['-', '-', '-', '\n'] := rfl
  rw [hhd]
  rw [beforeFirst_skip_no_newline ['-', '-', '-', '\n'] ['-', '-', '-'] _ (by decide)]
  rw [beforeFirst_cons_ne _ '\n' _ (by simp [List.isPrefixOf])]
  rw [beforeFirst_skip_no_newline ['-', '-', '-', '\n']
    ['t', 'i', 't', 'l', 'e', ':', ' ', '\"', 'd', 'e', 'f', 'a', 'u', 'l', 't', '\"'] _
    (by decide)]
  rw [beforeFirst_cons_ne _ '\n' _ (by simp [List.isPrefixOf])]
  rw [beforeFirst_skip_no_newline ['-', '-', '-', '\n']
    ('t' :: 'a' :: 'g' :: 's' :: ':' :: ' ' :: '[' :: (J ++ [']'])) _ ?htag]
  case htag =>
    intro c hc
    simp only [List.mem_cons, List.mem_append, List.not_mem_nil, or_false] at hc
    rcases hc with rfl | rfl | rfl | rfl | rfl | rfl | rfl | h | rfl
    · decide
    · decide
    · decide
    · decide
    · decide
    · decide
    · decide
    · exact hJ c h
    · decide
  rw [beforeFirst_at_start '\n' ['-', '-', '-', '\n'] tail]

theorem canonical_findTags (J : List Char) (hJ : ∀ c ∈ J, c ≠ ']' ∧ c ≠ '\n') :
    findTags
      (['-', '-', '-'] ++ ('\n' ::
        (['t', 'i', 't', 'l', 'e', ':', ' ', '\"', 'd', 'e', 'f', 'a', 'u', 'l', 't', '\"'] ++
          ('\n' :: (('t' :: 'a' :: 'g' :: 's' :: ':' :: ' ' :: '[' :: (J ++ [']'])) ++ []))))) =
      some ('t' :: 'a' :: 'g' :: 's' :: ':' :: ' ' :: '[' :: (J ++ [']']), J) := by
  have htk : tagsKey = ['t', 'a', 'g', 's', ':'] := rfl
  rw [List.append_nil]
  rw [findTags_of_from _ (matchTagsAt_none_of_not_key _
    (by simp [htk, List.isPrefixOf]))]
  rw [findTagsFrom_skip_no_newline ['-', '-', '-'] _ (by decide)]
  rw [findTagsFrom_newline_none _ (matchTagsAt_none_of_not_key _
    (by simp [htk, List.isPrefixOf]))]
  rw [findTagsFrom_skip_no_newline
    ['t', 'i', 't', 'l', 'e', ':', ' ', '\"', 'd', 'e', 'f', 'a', 'u', 'l', 't', '\"'] _
    (by decide)]
  exact findTagsFrom_newline_some _ _ (matchTagsAt_line J [] hJ (Or.inl rfl))

/-! ## Claim theorems -/

/-- C2: the claim says the first write on an empty file emits a block whose
delimiter lines are exactly `---`, with `title: "default"` and
`tags: [...]` lines and a closing delimiter locatable via `\n---\n`.  The
source's raw string literal indents every line after the first by four
spaces, so the emitted block (shown here verbatim for tags `["a"]`)
contains no `\n---\n` substring at all, its `title`/`tags` lines carry
leading spaces, and the closing delimiter line is `    ---`, not `---`.
This contradicts the doc-comment example on `generate_meta` itself, which
shows the unindented block. -/
theorem C2_header_indentation_bug :
    Entry.generate_meta ["a"] =
      "---\n    title: \"default\"\n    tags: [a]\n    ---\n    \n    " ∧
    hasSubstr headerDelim (Entry.generate_meta ["a"]).data = false := by
  refine ⟨rfl, ?_⟩
  decide

/-- C1: the claimed init-then-merge round trip fails on the code.  A first
write on the empty file produces the indented header, and a second write
on the resulting file with a fresh tag errs with `CannotParseMetaData`
instead of merging: the indented header contains no `\n---\n` and no
line-anchored `tags:` line, so the regex never matches.  (The generated
header contradicts `generate_meta`'s own doc-comment example, so this is a
bug in the code, not in the claim.) -/
theorem C1_roundtrip_bug :
    Entry.write "first" ["a"] "" =
      Except.ok
        "---\n    title: \"default\"\n    tags: [a]\n    ---\n    \n    - first\n" ∧
    Entry.write "second" ["b"]
        "---\n    title: \"default\"\n    tags: [a]\n    ---\n    \n    - first\n" =
      Except.error Error.CannotParseMetaData := by
  constructor
  · rfl
  · rfl

/-- C3 counterexample: the claim says every merge on a content with no
`\n---\n` occurrence fails with `CannotParseMetaData`.  In the source,
`contents.split("\n---\n").next()` always yields `Some` (the whole content
when the delimiter is absent), so the delimiter-missing error path is dead
code: on the content `"tags: [x]"`, which contains no `\n---\n`, a write
with tags `["y"]` succeeds and merges into the whole content. -/
theorem C3_no_delimiter_merge_succeeds :
    hasSubstr headerDelim ("tags: [x]" : String).data = false ∧
    Entry.write "note" ["y"] "tags: [x]" = Except.ok "tags: [x, y]- note\n" := by
  constructor
  · decide
  · rfl

/-- C3 as amended: a merge on a non-empty file whose content has no
`\n---\n` occurrence fails with `CannotParseMetaData` only when the
content (which then serves wholesale as the candidate header block) also
has no match of the tags-line pattern; in that case no bytes are written
(the error return aborts `update_meta` before its `fs::write` and
propagates out of `write` before the entry-line append). -/
theorem C3_amended_reject (c : String) (tags : List String) (file : String)
    (htags : tags ≠ []) (hne : file.data ≠ [])
    (hnodelim : hasSubstr headerDelim file.data = false)
    (hnotags : findTags file.data = none) :
    Entry.write c tags file = Except.error Error.CannotParseMetaData := by
  unfold Entry.write
  rw [if_neg (by simpa using hne), if_pos (by simpa using htags)]
  simp only [Entry.update_meta, beforeFirst_eq_self _ _ hnodelim, hnotags]

/-- Witness for C3's amended theorem at the content `"hello"` (no
delimiter, no tags line). -/
theorem C3_amended_reject_witness :
    Entry.write "note" ["y"] "hello" = Except.error Error.CannotParseMetaData :=
  C3_amended_reject "note" ["y"] "hello" (by decide) (by decide) (by decide)
    (by decide)

/-- C4: a write with non-empty tags on a non-empty file whose candidate
header block (the text before the first `\n---\n`, or the whole content
when the delimiter is absent) has no match of the tags-line pattern
`tags: [...]` fails with `CannotParseMetaData`.  The error is raised in
`update_meta` before its `fs::write`, and `?` propagates it out of `write`
before the entry-line append, so no bytes reach the file. -/
theorem C4_missing_tags_line_rejected (c : String) (tags : List String)
    (file : String) (htags : tags ≠ []) (hne : file.data ≠ [])
    (hfind : findTags (beforeFirst headerDelim file.data) = none) :
    Entry.write c tags file = Except.error Error.CannotParseMetaData := by
  unfold Entry.write
  rw [if_neg (by simpa using hne), if_pos (by simpa using htags)]
  simp only [Entry.update_meta, hfind]

/-- Witness for C4 at a file whose header block lacks a tags line. -/
theorem C4_missing_tags_line_rejected_witness :
    Entry.write "x" ["a"] "---\ntitle: \"default\"\n---\nbody" =
      Except.error Error.CannotParseMetaData :=
  C4_missing_tags_line_rejected "x" ["a"] "---\ntitle: \"default\"\n---\nbody"
    (by decide) (by decide) (by decide)

/-- C8: a write with an empty tag list on a non-empty file takes the fast
path: `update_meta` is never entered (so the header is neither read nor
rewritten) and the only change is the entry line `- {content}\n` appended
at the end. -/
theorem C8_empty_tags_append_only (c : String) (file : String)
    (hne : file.data ≠ []) :
    Entry.write c [] file = Except.ok (file ++ "- " ++ c ++ "\n") := by
  unfold Entry.write
  rw [if_neg (by simpa using hne)]
  simp

/-- Witness for C8 on a concrete non-empty file. -/
theorem C8_empty_tags_append_only_witness :
    Entry.write "c" [] "existing" = Except.ok ("existing" ++ "- " ++ "c" ++ "\n") :=
  C8_empty_tags_append_only "c" "existing" (by decide)

/-- C7: merge idempotence.  On a non-empty file whose candidate header
block parses (the tags regex matches, yielding matched text `m0` and
bracket contents `inner`), a write all of whose tags are already in the
parsed existing-tag set leaves the content byte-identical except for the
single appended entry line: the filtered new-tag list is empty, so no
replacement occurs and `update_meta` hands the contents back unchanged.
(The empty tag list is covered by the fast path and satisfies the
conclusion too.) -/
theorem C7_idempotent_merge (c : String) (tags : List String) (file : String)
    (m0 inner : List Char) (hne : file.data ≠ [])
    (hfind : findTags (beforeFirst headerDelim file.data) = some (m0, inner))
    (hall : ∀ t ∈ tags,
      t ∈ (splitOnChar ',' inner).map (fun s => String.mk (trimChars s))) :
    Entry.write c tags file = Except.ok (file ++ "- " ++ c ++ "\n") := by
  unfold Entry.write
  rw [if_neg (by simpa using hne)]
  by_cases htags : tags = []
  · subst htags
    simp
  · rw [if_pos (by simpa using htags)]
    simp only [Entry.update_meta, hfind]
    have hfilter : tags.filter
        (fun t => !(((splitOnChar ',' inner).map
          (fun s => String.mk (trimChars s))).contains t)) = [] := by
      rw [List.filter_eq_nil_iff]
      intro t ht
      simp only [Bool.not_eq_true', Bool.not_eq_false]
      exact List.elem_iff.mpr (hall t ht)
    rw [hfilter]
    simp

/-- Witness for C7: re-adding the already-present tag `a` appends only the
entry line. -/
theorem C7_idempotent_merge_witness :
    Entry.write "again" ["a"] "---\ntitle: \"default\"\ntags: [a, b]\n---\n\n- e1\n" =
      Except.ok ("---\ntitle: \"default\"\ntags: [a, b]\n---\n\n- e1\n" ++ "- " ++
        "again" ++ "\n") :=
  C7_idempotent_merge "again" ["a"] "---\ntitle: \"default\"\ntags: [a, b]\n---\n\n- e1\n"
    ("tags: [a, b]").data ("a, b").data (by decide) (by decide) (by decide)

/-- C10: the empty-bracket phantom tag.  When the regex match on the
candidate header block is exactly the line `tags: []` (so the capture is
empty), Rust's `"".split(',')` yields one empty piece and the existing-tag
set parses as `[""]`: an input tag equal to the empty string is treated as
already present (no rewrite at all), while merging a non-empty tag `t`
replaces the line by `tags: [, t]` — the phantom empty tag is joined in
front of `t`. -/
theorem C10_phantom_empty_tag (file t : String)
    (hfind : findTags (beforeFirst headerDelim file.data) =
      some (("tags: []").data, []))
    (ht : t ≠ "") :
    Entry.update_meta [""] file = Except.ok file ∧
    Entry.update_meta [t] file =
      Except.ok (String.mk (replaceAll ("tags: []").data
        ("tags: [, " ++ t ++ "]").data file.data)) := by
  have hmap : (splitOnChar ',' ([] : List Char)).map
      (fun s => String.mk (trimChars s)) = [""] := rfl
  constructor
  · simp only [Entry.update_meta, hfind]
    rw [hmap]
    simp
  · simp only [Entry.update_meta, hfind]
    rw [hmap]
    have hbeq : (t == ("" : String)) = false := beq_eq_false_iff_ne.mpr ht
    simp only [List.filter_cons, List.filter_nil, List.contains_cons,
      List.contains_nil, Bool.or_false, hbeq, Bool.not_false, if_true,
      List.isEmpty_cons, List.singleton_append, if_false, Bool.false_eq_true]
    have hline : ("tags: [" ++ joinSep ", " [("" : String), t] ++ "]") =
        ("tags: [, " ++ t ++ "]") := by
      apply String.ext
    -- both sides flatten to the same character list
      have h1 : ("tags: [" : String).data = ['t','a','g','s',':',' ','['] := rfl
      have h2 : (", " : String).data = [',',' '] := rfl
      have h3 : ("tags: [, " : String).data = ['t','a','g','s',':',' ','[',',',' '] := rfl
      have h4 : ("]" : String).data = [']'] := rfl
      have h5 : ("" : String).data = [] := rfl
      simp [joinSep, String.data_append, h1, h2, h3, h4, h5]
    rw [hline]

/-- C6 counterexample: the claim says a successful merge replaces only the
first occurrence of the original tags line text, leaving every later
occurrence unchanged.  Rust's `str::replace` replaces every occurrence: on
the file `tags: [a]\n---\ntags: [a]\n` (the matched line text occurs
twice), merging tag `b` rewrites both occurrences, so the result differs
from the first-occurrence-only outcome the claim predicts. -/
theorem C6_replace_hits_every_occurrence :
    Entry.update_meta ["b"] "tags: [a]\n---\ntags: [a]\n" =
      Except.ok "tags: [a, b]\n---\ntags: [a, b]\n" ∧
    ("tags: [a, b]\n---\ntags: [a, b]\n" : String) ≠
      "tags: [a, b]\n---\ntags: [a]\n" := by
  constructor
  · rfl
  · decide

/-- C6 as amended: a successful rewriting merge replaces every occurrence
of the matched tags-line text throughout the file (Rust's `str::replace`
replaces all matches), leaving all other bytes unchanged.  Stated over any
decomposition `A ++ m0 ++ B ++ m0 ++ C` of the content in which the only
occurrences of the matched text `m0` start at the two shown positions:
both are replaced by the updated line. -/
theorem C6_amended_replace_every (tags : List String) (contents : String)
    (A B C m0 inner : List Char)
    (hsplit : contents.data = A ++ (m0 ++ (B ++ (m0 ++ C))))
    (hfind : findTags (beforeFirst headerDelim contents.data) =
      some (m0, inner))
    (hm0 : m0 ≠ [])
    (hnew : (newTagsOf tags inner).isEmpty = false)
    (hA : ∀ i, i < A.length →
      m0.isPrefixOf ((A ++ (m0 ++ (B ++ (m0 ++ C)))).drop i) = false)
    (hB : ∀ i, i < B.length →
      m0.isPrefixOf ((B ++ (m0 ++ C)).drop i) = false)
    (hC : hasSubstr m0 C = false) :
    Entry.update_meta tags contents =
      Except.ok (String.mk (A ++ ((updatedLine tags inner).data ++
        (B ++ ((updatedLine tags inner).data ++ C))))) := by
  rw [update_meta_found tags contents m0 inner hfind,
    if_neg (by rw [hnew]; exact Bool.false_ne_true)]
  rw [hsplit]
  rw [replaceAll_skip_front m0 (updatedLine tags inner).data A
    (m0 ++ (B ++ (m0 ++ C))) hA]
  rw [replaceAll_head m0 (updatedLine tags inner).data (B ++ (m0 ++ C)) hm0]
  rw [replaceAll_skip_front m0 (updatedLine tags inner).data B (m0 ++ C) hB]
  rw [replaceAll_head m0 (updatedLine tags inner).data C hm0]
  rw [replaceAll_no_occurrence m0 (updatedLine tags inner).data C hC]

/-- Witness for the amended C6 on the duplicated-tags-line file. -/
theorem C6_amended_replace_every_witness :
    Entry.update_meta ["b"] "tags: [a]\n---\ntags: [a]\n" =
      Except.ok (String.mk (([] : List Char) ++
        ((Til.updatedLine ["b"] ("a" : String).data).data ++
          (("\n---\n" : String).data ++
            ((Til.updatedLine ["b"] ("a" : String).data).data ++
              ['\n']))))) :=
  C6_amended_replace_every ["b"] "tags: [a]\n---\ntags: [a]\n"
    [] ("\n---\n" : String).data ['\n'] ("tags: [a]" : String).data
    ("a" : String).data (by decide) (by decide) (by decide) (by decide)
    (by decide) (by decide) (by decide)

/-- C5: the merge computation, on the canonical header file
`---\ntitle: "default"\ntags: [<ex joined by ", ">]\n---\n<body>`.  The
existing-tag set is recovered by splitting the bracket contents on commas
and trimming each piece (for well-formed rendered tags this returns
exactly `ex`); the tags to add are the input tags not already present
under exact string equality (no trimming or case-folding of input tags);
and the updated line lists the existing tags in original order followed by
the genuinely new tags in input order.  The body hypothesis rules out a
second occurrence of the tags-line text beyond the header, which would
also be rewritten (see the C6 theorems). -/
theorem C5_merge_computation (ex tags : List String) (body : String)
    (hex : ex ≠ []) (hwf : ∀ t ∈ ex, wfTag t)
    (hbody : hasSubstr ("tags: [" ++ joinSep ", " ex ++ "]").data
      (("\n---\n" ++ body) : String).data = false) :
    Entry.update_meta tags
        ("---\ntitle: \"default\"\ntags: [" ++ joinSep ", " ex ++ "]\n---\n" ++ body) =
      Except.ok
        ("---\ntitle: \"default\"\ntags: [" ++
          joinSep ", " (ex ++ tags.filter (fun t => !(ex.contains t))) ++
          "]\n---\n" ++ body) := by
  have hJ : ∀ c ∈ (joinSep ", " ex).data, c ≠ ']' ∧ c ≠ '\n' := by
    intro c hc
    rcases mem_joinSep_data ex c hc with rfl | rfl | ⟨t, ht, hct⟩
    · exact ⟨by decide, by decide⟩
    · exact ⟨by decide, by decide⟩
    · exact ⟨((hwf t ht).1 c hct).2.1, ((hwf t ht).1 c hct).2.2⟩
  have h1 : ("---\ntitle: \"default\"\ntags: [" : String).data =
      ['-', '-', '-', '\n', 't', 'i', 't', 'l', 'e', ':', ' ', '\"', 'd', 'e',
        'f', 'a', 'u', 'l', 't', '\"', '\n', 't', 'a', 'g', 's', ':', ' ', '['] := rfl
  have h2 : ("]\n---\n" : String).data = [']', '\n', '-', '-', '-', '\n'] := rfl
  have h3 : headerDelim = ['\n', '-', '-', '-', '\n'] := rfl
  have hcd : ("---\ntitle: \"default\"\ntags: [" ++ joinSep ", " ex ++
        "]\n---\n" ++ body).data =
      ['-', '-', '-'] ++ ('\n' ::
        (['t', 'i', 't', 'l', 'e', ':', ' ', '\"', 'd', 'e', 'f', 'a', 'u', 'l', 't', '\"'] ++
          ('\n' :: (('t' :: 'a' :: 'g' :: 's' :: ':' :: ' ' :: '[' ::
            ((joinSep ", " ex).data ++ [']'])) ++ (headerDelim ++ body.data))))) := by
    simp [String.data_append, h1, h2, h3, List.append_assoc]
  have hfind : findTags (beforeFirst headerDelim
      ("---\ntitle: \"default\"\ntags: [" ++ joinSep ", " ex ++
        "]\n---\n" ++ body).data) =
      some ('t' :: 'a' :: 'g' :: 's' :: ':' :: ' ' :: '[' ::
        ((joinSep ", " ex).data ++ [']']), (joinSep ", " ex).data) := by
    rw [hcd, canonical_meta (joinSep ", " ex).data body.data
      (fun c hc => (hJ c hc).2), canonical_findTags (joinSep ", " ex).data hJ]
  rw [update_meta_found tags _ _ _ hfind]
  have hparse : parsedTags (joinSep ", " ex).data = ex :=
    parsedTags_joinSep ex hex hwf
  have hnewt : newTagsOf tags (joinSep ", " ex).data =
      tags.filter (fun t => !(ex.contains t)) := by
    unfold newTagsOf
    rw [hparse]
  by_cases hf : (tags.filter (fun t => !(ex.contains t))).isEmpty
  · rw [hnewt, if_pos hf]
    have hfe : tags.filter (fun t => !(ex.contains t)) = [] :=
      List.isEmpty_iff.mp hf
    rw [hfe, List.append_nil]
  · rw [hnewt, if_neg hf]
    have hupd : updatedLine tags (joinSep ", " ex).data =
        "tags: [" ++ joinSep ", " (ex ++ tags.filter (fun t => !(ex.contains t))) ++
          "]" := by
      unfold updatedLine newTagsOf
      rw [hparse]
    rw [hupd]
    have hdecomp : ("---\ntitle: \"default\"\ntags: [" ++ joinSep ", " ex ++
          "]\n---\n" ++ body).data =
        ['-', '-', '-', '\n', 't', 'i', 't', 'l', 'e', ':', ' ', '\"', 'd', 'e',
            'f', 'a', 'u', 'l', 't', '\"', '\n'] ++
          (('t' :: 'a' :: 'g' :: 's' :: ':' :: ' ' :: '[' ::
            ((joinSep ", " ex).data ++ [']'])) ++ (headerDelim ++ body.data)) := by
      rw [hcd]
      simp [List.append_assoc]
    rw [hdecomp]
    rw [replaceAll_skip_front _ _
      ['-', '-', '-', '\n', 't', 'i', 't', 'l', 'e', ':', ' ', '\"', 'd', 'e',
        'f', 'a', 'u', 'l', 't', '\"', '\n'] _ ?hpre]
    case hpre =>
      intro i hi
      simp only [List.length_cons, List.length_nil] at hi
      interval_cases i <;>
        simp [List.isPrefixOf, List.drop_succ_cons, List.drop_zero]
    rw [replaceAll_head _ _ _ (by simp)]
    rw [replaceAll_no_occurrence _ _ _ ?hno]
    case hno =>
      have hm0 : (("tags: [" ++ joinSep ", " ex ++ "]") : String).data =
          't' :: 'a' :: 'g' :: 's' :: ':' :: ' ' :: '[' ::
            ((joinSep ", " ex).data ++ [']']) := by
        simp [String.data_append,
          show ("tags: [" : String).data = ['t', 'a', 'g', 's', ':', ' ', '['] from rfl,
          show ("]" : String).data = [']'] from rfl]
      have htl : (("\n---\n" ++ body) : String).data = headerDelim ++ body.data := by
        simp [String.data_append, h3,
          show ("\n---\n" : String).data = ['\n', '-', '-', '-', '\n'] from rfl]
      rw [← hm0, ← htl]
      exact hbody
    congr 1
    apply String.ext
    simp [String.data_append, h1, h2, h3, List.append_assoc,
      show ("tags: [" : String).data = ['t', 'a', 'g', 's', ':', ' ', '['] from rfl,
      show ("]" : String).data = [']'] from rfl]

/-- Witness for C5: the spec's own example, existing tags `[a, b]` and
input tags `[b, c]`, merges to `[a, b, c]`. -/
theorem C5_merge_computation_witness :
    Entry.update_meta ["b", "c"]
        ("---\ntitle: \"default\"\ntags: [" ++ joinSep ", " ["a", "b"] ++
          "]\n---\n" ++ "\n- e1\n") =
      Except.ok
        ("---\ntitle: \"default\"\ntags: [" ++
          joinSep ", " (["a", "b"] ++
            (["b", "c"].filter (fun t => !((["a", "b"] : List String).contains t)))) ++
          "]\n---\n" ++ "\n- e1\n") :=
  C5_merge_computation ["a", "b"] ["b", "c"] "\n- e1\n" (by decide)
    (by intro t ht; fin_cases ht <;> exact ⟨by decide, by decide⟩) (by decide)

/-- C9: path resolution.  For a valid calendar date in the four-digit-year
era, the resolved path is `root/{MM-DD-YYYY}/default.md` with month and
day zero-padded to exactly two digits and a four-digit year, and the path
is a pure function of `(root, date)` that is injective in the date: two
resolutions with the same root coincide exactly when the dates coincide.
(The `{:02}` padded rendering and the path layout are read off
`build_path` itself; the date components come from `chrono`'s
`Local::now()`.) -/
theorem C9_build_path_resolution (root : String) (m d y m2 d2 y2 : Nat)
    (hm1 : 1 ≤ m) (hm2 : m ≤ 12) (hd1 : 1 ≤ d) (hd2 : d ≤ 31)
    (hy1 : 1000 ≤ y) (hy2 : y ≤ 9999)
    (hm1b : 1 ≤ m2) (hm2b : m2 ≤ 12) (hd1b : 1 ≤ d2) (hd2b : d2 ≤ 31)
    (hy1b : 1000 ≤ y2) (hy2b : y2 ≤ 9999) :
    Entry.build_path root m d y =
      root ++ "/" ++ Entry.pad2 m ++ "-" ++ Entry.pad2 d ++ "-" ++
        String.mk (decRepr y) ++ "/default.md" ∧
    (Entry.pad2 m).length = 2 ∧ (Entry.pad2 d).length = 2 ∧
    (String.mk (decRepr y)).length = 4 ∧
    (Entry.build_path root m d y = Entry.build_path root m2 d2 y2 ↔
      (m = m2 ∧ d = d2 ∧ y = y2)) := by
  refine ⟨rfl, ?_, ?_, ?_, ?_, ?_⟩
  · show (Entry.pad2 m).data.length = 2
    exact pad2_len (by omega)
  · show (Entry.pad2 d).data.length = 2
    exact pad2_len (by omega)
  · show (decRepr y).length = 4
    exact decRepr_len_four hy1 hy2
  · intro h
    have hdata := congrArg String.data h
    have hs : (("/" : String)).data = ['/'] := rfl
    have hh : (("-" : String)).data = ['-'] := rfl
    simp only [Entry.build_path, String.data_append, data_mk, hs, hh,
      List.cons_append, List.nil_append, List.append_assoc] at hdata
    have h1 := List.append_cancel_left hdata
    simp only [List.cons.injEq, true_and] at h1
    obtain ⟨hmp, h2⟩ := List.append_inj h1
      (by rw [pad2_len (by omega : m < 100), pad2_len (by omega : m2 < 100)])
    have hmeq : m = m2 := pad2_inj (by omega) (by omega) (String.ext hmp)
    simp only [List.cons.injEq, true_and] at h2
    obtain ⟨hdp, h3⟩ := List.append_inj h2
      (by rw [pad2_len (by omega : d < 100), pad2_len (by omega : d2 < 100)])
    have hdeq : d = d2 := pad2_inj (by omega) (by omega) (String.ext hdp)
    simp only [List.cons.injEq, true_and] at h3
    have hyeq : y = y2 := decRepr_inj y y2 (List.append_cancel_right h3)
    exact ⟨hmeq, hdeq, hyeq⟩
  · rintro ⟨rfl, rfl, rfl⟩
    rfl

/-- Witness for C9 on two concrete dates. -/
theorem C9_build_path_resolution_witness :
    Entry.build_path "/home/u/.til/notes" 3 7 2026 =
      "/home/u/.til/notes" ++ "/" ++ Entry.pad2 3 ++ "-" ++ Entry.pad2 7 ++ "-" ++
        String.mk (decRepr 2026) ++ "/default.md" ∧
    (Entry.pad2 3).length = 2 ∧ (Entry.pad2 7).length = 2 ∧
    (String.mk (decRepr 2026)).length = 4 ∧
    (Entry.build_path "/home/u/.til/notes" 3 7 2026 =
      Entry.build_path "/home/u/.til/notes" 12 31 2026 ↔
      ((3 : Nat) = 12 ∧ (7 : Nat) = 31 ∧ (2026 : Nat) = 2026)) :=
  C9_build_path_resolution "/home/u/.til/notes" 3 7 2026 12 31 2026
    (by omega) (by omega) (by omega) (by omega) (by omega) (by omega)
    (by omega) (by omega) (by omega) (by omega) (by omega) (by omega)

/-- Witness for C10 on a concrete file with an empty bracket list. -/
theorem C10_phantom_empty_tag_witness :
    Entry.update_meta [""] "tags: []\n---\nx" = Except.ok "tags: []\n---\nx" ∧
    Entry.update_meta ["a"] "tags: []\n---\nx" =
      Except.ok (String.mk (replaceAll ("tags: []").data
        ("tags: [, " ++ "a" ++ "]").data ("tags: []\n---\nx" : String).data)) :=
  C10_phantom_empty_tag "tags: []\n---\nx" "a" (by decide) (by decide)

end Til
